import Mathlib

/-!
Shallow embedding of the two report scripts of the Local_Units_IFRC_analytics
repository (`src/extract_local_units.py` and `src/extract_local_units_treemap.py`)
together with proofs about the fetcher, the aggregators and the reporter.

Modelling conventions:
* a JSON record `{"type_details": {"name": str} | null, "country": int | null}`
  becomes the structure `LocalUnit`;
* `collections.Counter` becomes an association list `List (K × Nat)` updated by
  `counterIncr` (which mirrors `counter[key] += 1`: bump the existing entry or
  append a fresh one with count 1);
* the paginated HTTP fetch loop is modelled twice, both times directly from the
  `while True` loop of `fetch_all_local_units` / `fetch_paginated`: over a finite
  mocked list of page responses (`fetchLoop`, which also reports how many pages
  were requested and whether the stop condition fired inside the mock) and over
  an unbounded response stream (`stopsAt` / `fetchTerminates`), used to reason
  about termination;
* a run of `main` is a pure function of the per-environment fetch outcomes; the
  `Option` result models the early `return` (`none` = no spreadsheet written).
-/

/-- The nested type descriptor of a local unit: `{"name": str}`. -/
structure TypeDetails where
  name : String
deriving DecidableEq

/-- One local-unit record as consumed by both scripts:
`{"type_details": {"name": str} | null, "country": int | null}`. -/
structure LocalUnit where
  type_details : Option TypeDetails
  country : Option Int
deriving DecidableEq

/-- One country record as consumed by the treemap script:
`{"id": int | absent, "region": int | absent}` (`c.get(...)` may yield `None`). -/
structure Country where
  id : Option Int
  region : Option Int
deriving DecidableEq

/-- `Counter` lookup, `counter.get(key, 0)` / `counter[key]` semantics:
0 for an absent key. -/
def counterGet {K : Type} [DecidableEq K] : List (K × Nat) → K → Nat
  | [], _ => 0
  | (k2, v) :: rest, k => if k = k2 then v else counterGet rest k

/-- `counter[key] += 1` on the association-list model of `collections.Counter`. -/
def counterIncr {K : Type} [DecidableEq K] : List (K × Nat) → K → List (K × Nat)
  | [], k => [(k, 1)]
  | (k2, v) :: rest, k =>
    if k = k2 then (k2, v + 1) :: rest else (k2, v) :: counterIncr rest k

/-- `sum(counter.values())`. -/
def counterTotal {K : Type} (c : List (K × Nat)) : Nat :=
  (c.map (fun p => p.2)).sum

/-- `counter.keys()`. -/
def counterKeys {K : Type} (c : List (K × Nat)) : List K :=
  c.map (fun p => p.1)

/-- The category key chosen by `count_types` for one record
(`extract_local_units.py` lines 62-67): the nested type name when `type_details`
is present with a truthy (non-empty) `name`, else the sentinel. -/
def simpleTypeKey (record : LocalUnit) : String :=
  match record.type_details with
  | some td => if td.name = "" then "Unknown / No Type" else td.name
  | none => "Unknown / No Type"

/-- `count_types` (`extract_local_units.py` lines 59-68). -/
def count_types (records : List LocalUnit) : List (String × Nat) :=
  records.foldl (fun counter record => counterIncr counter (simpleTypeKey record)) []

/-- `LIMIT = 50  # records per page`. -/
def LIMIT : Nat := 50

/-- One JSON page response `{"count": int, "results": [...]}` (defaults
`data.get("count", 0)` and `data.get("results", [])` are the fields themselves
in the mock). -/
structure Page (α : Type) where
  count : Nat
  results : List α
deriving DecidableEq

/-- The `while True` fetch loop of `fetch_all_local_units` / `fetch_paginated`
run against a finite mocked sequence of page responses.  `offset` is the offset
of the next request, `acc` the records accumulated so far.  Returns the
accumulated records, the number of pages requested from the mock, and whether
the stop condition `offset >= total or len(results) == 0` (checked after
`offset += LIMIT`) fired within the mock; `false` means the loop would have
issued a request beyond the mocked sequence. -/
def fetchLoop {α : Type} : List (Page α) → Nat → List α → List α × Nat × Bool
  | [], _, acc => (acc, 0, false)
  | p :: rest, offset, acc =>
    let acc2 := acc ++ p.results
    if offset + LIMIT ≥ p.count ∨ p.results.length = 0 then (acc2, 1, true)
    else
      let r := fetchLoop rest (offset + LIMIT) acc2
      (r.1, r.2.1 + 1, r.2.2)

/-- `fetch_all_local_units` / `fetch_paginated` on a mocked page sequence. -/
def fetch_paginated {α : Type} (pages : List (Page α)) : List α × Nat × Bool :=
  fetchLoop pages 0 []

/-- The fetch loop's stop condition at iteration `n` (0-based) over an unbounded
response stream: after requesting page `n` the offset has been incremented `n+1`
times, so the loop breaks iff `(n+1)*LIMIT >= count_of_page_n` or page `n` came
back empty. -/
def stopsAt {α : Type} (resp : Nat → Page α) (n : Nat) : Prop :=
  (n + 1) * LIMIT ≥ (resp n).count ∨ (resp n).results.length = 0

/-- The fetch loop terminates on the stream `resp` iff its stop condition fires
at some iteration. -/
def fetchTerminates {α : Type} (resp : Nat → Page α) : Prop :=
  ∃ n, stopsAt resp n

/-- `REGION_MAP` of `extract_local_units_treemap.py` (the 5-entry dict),
as `dict.get`-style lookup. -/
def REGION_MAP (region_id : Int) : Option String :=
  if region_id = 0 then some "Africa"
  else if region_id = 1 then some "Americas"
  else if region_id = 2 then some "Asia Pacific"
  else if region_id = 3 then some "Europe"
  else if region_id = 4 then some "MENA"
  else none

/-- `REGION_MAP.get(region_id, f"Unknown ({region_id})")`. -/
def regionMapGet (region_id : Int) : String :=
  (REGION_MAP region_id).getD ("Unknown (" ++ toString region_id ++ ")")

/-- One iteration of the `build_country_to_region` loop: `mapping[country_id] =
REGION_MAP.get(region_id, ...)` when both fields are present, else no change. -/
def regionStep (mapping : Int → Option String) (c : Country) : Int → Option String :=
  match c.id, c.region with
  | some country_id, some region_id =>
    fun k => if k = country_id then some (regionMapGet region_id) else mapping k
  | _, _ => mapping

/-- `build_country_to_region` (`extract_local_units_treemap.py` lines 80-88). -/
def build_country_to_region (countries : List Country) : Int → Option String :=
  countries.foldl regionStep (fun _ => none)

/-- The category key chosen by `process_environment` for one local unit
(`extract_local_units_treemap.py` lines 111-116), sentinel `"Unknown Type"`. -/
def treemapTypeKey (unit : LocalUnit) : String :=
  match unit.type_details with
  | some td => if td.name = "" then "Unknown Type" else td.name
  | none => "Unknown Type"

/-- `set.add` on the list model of a Python set (kept in insertion order). -/
def insertDedup {β : Type} [DecidableEq β] (s : List β) (x : β) : List β :=
  if x ∈ s then s else s ++ [x]

/-- The mutable state of the counting loop of `process_environment`:
`type_region_counter` and `unresolved_countries`. -/
structure TallyState where
  counter : List ((String × String) × Nat)
  unresolved : List (Option Int)
deriving DecidableEq

/-- One iteration of the counting loop of `process_environment`
(`extract_local_units_treemap.py` lines 109-126): resolve the type key, look the
country id up in the mapping (`dict.get` of an optional id, `None` on a miss),
fall back to `"Unknown Region"` recording the unresolved id, and bump the
`(type_name, region_name)` counter. -/
def tallyStep (mapping : Int → Option String) (st : TallyState) (unit : LocalUnit) :
    TallyState :=
  let type_name := treemapTypeKey unit
  match unit.country.bind mapping with
  | some region_name =>
    { st with counter := counterIncr st.counter (type_name, region_name) }
  | none =>
    { counter := counterIncr st.counter (type_name, "Unknown Region"),
      unresolved := insertDedup st.unresolved unit.country }

/-- The whole counting loop of `process_environment` over the fetched units. -/
def tallyUnits (mapping : Int → Option String) (units : List LocalUnit) : TallyState :=
  units.foldl (tallyStep mapping) ⟨[], []⟩

/-- numpy / pandas `round` to an integer (round half to even), on the exact
rational value of the float expression. -/
def roundHalfEven (q : ℚ) : ℤ :=
  let f := ⌊q⌋
  if q - (f : ℚ) < 1 / 2 then f
  else if 1 / 2 < q - (f : ℚ) then f + 1
  else if f % 2 = 0 then f else f + 1

/-- pandas `.round(2)`. -/
def round2 (q : ℚ) : ℚ :=
  ((roundHalfEven (q * 100) : ℤ) : ℚ) / 100

/-- The `pct_<env>` column of `main` (`extract_local_units.py` lines 118-121):
`(df[count_col] / total * 100).round(2) if total else 0`. -/
def pctColumn (counts : List Nat) : List ℚ :=
  let total := counts.sum
  if total = 0 then counts.map (fun _ => 0)
  else counts.map (fun c => round2 ((c : ℚ) / (total : ℚ) * 100))

/-- The `waffle_cells_<env>` column of `main` (`extract_local_units.py` lines
123-128): `(df[count_col] / total * 100).round(0).astype(int) if total else 0`. -/
def waffleColumn (counts : List Nat) : List ℤ :=
  let total := counts.sum
  if total = 0 then counts.map (fun _ => 0)
  else counts.map (fun c => roundHalfEven ((c : ℚ) / (total : ℚ) * 100))

/-- Outcome of fetching one environment: the accumulated records, or the

`requests.exceptions.ConnectionError` / `requests.exceptions.HTTPError` raised
by the fetch. -/
inductive FetchOutcome (α : Type) where
  | ok (records : List α)
  | connError
  | httpError (status : Nat)
deriving DecidableEq

/-- The fetch for an environment raised (connection error or HTTP error). -/
def IsFetchError {α : Type} (o : FetchOutcome α) : Prop :=
  o = FetchOutcome.connError ∨ ∃ s, o = FetchOutcome.httpError s

/-- `ENVIRONMENTS` keys in dict insertion order. -/
def ENVIRONMENTS : List String := ["production", "staging"]

/-- The `env_counts` dict built by the try/except loop of `main`
(`extract_local_units.py` lines 77-93): one entry per environment whose fetch
succeeded, in `ENVIRONMENTS` order, holding `count_types` of its records. -/
def envCounts (fetch : String → FetchOutcome LocalUnit) (envs : List String) :
    List (String × List (String × Nat)) :=
  envs.foldl
    (fun acc env =>
      match fetch env with
      | FetchOutcome.ok records => acc ++ [(env, count_types records)]
      | _ => acc)
    []

/-- Python-dict lookup on an association list (first matching key wins). -/
def assocLookup {β : Type} : List (String × β) → String → Option β
  | [], _ => none
  | (k2, v) :: rest, k => if k = k2 then some v else assocLookup rest k

/-- `set().union(...)` modelled as first-occurrence deduplication. -/
def dedupKeys (keys : List String) : List String :=
  keys.foldl (fun acc k => if k ∈ acc then acc else acc ++ [k]) []

/-- `all_types = sorted(set().union(*[c.keys() for c in env_counts.values()]))`
(`extract_local_units.py` line 100). -/
def all_types (ec : List (String × List (String × Nat))) : List String :=
  List.insertionSort (fun a b => a ≤ b)
    (dedupKeys ((ec.map (fun p => counterKeys p.2)).flatten))

/-- One row of the simple report: the `categories` cell and the
`count_<env>` cells, keyed by environment name. -/
structure ReportRow where
  category : String
  cells : List (String × Nat)
deriving DecidableEq

/-- The row-building loop of `main` (`extract_local_units.py` lines 103-109):
one row per type in `all_types`; a `count_<env>` cell for each environment
present in `env_counts`, holding `env_counts[env].get(type_name, 0)`. -/
def buildRows (ec : List (String × List (String × Nat))) : List ReportRow :=
  (all_types ec).map
    (fun type_name =>
      { category := type_name,
        cells := ENVIRONMENTS.filterMap
          (fun env =>
            (assocLookup ec env).map (fun c => (env, counterGet c type_name))) })

/-- The spreadsheet written by the simple report (`local_units_summary.xlsx`):
rows plus the derived `pct_<env>` and `waffle_cells_<env>` columns. -/
structure SimpleReport where
  rows : List ReportRow
  pctCols : List (String × List ℚ)
  waffleCols : List (String × List ℤ)
deriving DecidableEq

/-- `df[count_col]` as a list over the rows (the cell exists for every
environment in `env_counts`; `getD 0` is never hit on those). -/
def countColumn (rows : List ReportRow) (env : String) : List Nat :=
  rows.map (fun row => (assocLookup row.cells env).getD 0)

/-- `main` of `extract_local_units.py` as a function of the per-environment
fetch outcomes.  `none` models the early `return` on `if not env_counts` (no
file written); `some` carries the spreadsheet that gets written. -/
def mainSimple (fetch : String → FetchOutcome LocalUnit) : Option SimpleReport :=
  let ec := envCounts fetch ENVIRONMENTS
  if ec.isEmpty then none
  else
    let rows := buildRows ec
    some
      { rows := rows,
        pctCols := ec.map (fun p => (p.1, pctColumn (countColumn rows p.1))),
        waffleCols := ec.map (fun p => (p.1, waffleColumn (countColumn rows p.1))) }

/-- `sorted(...)` order of the treemap rows `(categories, Region, count)`:
lexicographic on the triple, matching Python tuple comparison of
`sorted(counter.items())` followed by the stable
`sort_values(["categories", "Region"])`. -/
def treemapRowLe (a b : String × String × Nat) : Prop :=
  a.1 < b.1 ∨ (a.1 = b.1 ∧ (a.2.1 < b.2.1 ∨ (a.2.1 = b.2.1 ∧ a.2.2 ≤ b.2.2)))

instance : DecidableRel treemapRowLe := fun a b => by
  unfold treemapRowLe
  infer_instance

/-- The DataFrame built by `process_environment` (lines 131-142): the sorted
`(categories, Region, count)` rows of the tally. -/
def buildTreemapRows (mapping : Int → Option String) (units : List LocalUnit) :
    List (String × String × Nat) :=
  List.insertionSort treemapRowLe
    ((tallyUnits mapping units).counter.map (fun p => (p.1.1, p.1.2, p.2)))

/-- `process_environment` (`extract_local_units_treemap.py` lines 91-152) as a
function of the outcomes of its two fetches.  The country fetch happens first;
an error in either fetch is caught and gives `None`. -/
def process_environment (countriesOutcome : FetchOutcome Country)
    (unitsOutcome : FetchOutcome LocalUnit) :
    Option (List (String × String × Nat)) :=
  match countriesOutcome with
  | FetchOutcome.ok countries =>
    match unitsOutcome with
    | FetchOutcome.ok units =>
      some (buildTreemapRows (build_country_to_region countries) units)
    | _ => none
  | _ => none

/-- `main` of `extract_local_units_treemap.py`: collect `all_sheets` over the
environments, `none` models the early `return` when no environment succeeded
(no file written); `some` carries the per-environment sheets written. -/
def mainTreemap (fetchCountries : String → FetchOutcome Country)
    (fetchUnits : String → FetchOutcome LocalUnit) :
    Option (List (String × List (String × String × Nat))) :=
  let sheets := ENVIRONMENTS.filterMap
    (fun env =>
      (process_environment (fetchCountries env) (fetchUnits env)).map
        (fun df => (env, df)))
  if sheets.isEmpty then none else some sheets

/-! ### Counter lemmas -/

lemma counterTotal_incr {K : Type} [DecidableEq K] (c : List (K × Nat)) (k : K) :
    counterTotal (counterIncr c k) = counterTotal c + 1 := by
  induction c with
  | nil => simp [counterIncr, counterTotal]
  | cons p rest ih =>
    obtain ⟨k2, v⟩ := p
    by_cases h : k = k2
    · simp [counterIncr, h, counterTotal]
      omega
    · simp [counterIncr, h, counterTotal] at ih ⊢
      omega

lemma count_types_aux :
    ∀ (records : List LocalUnit) (acc : List (String × Nat)),
      counterTotal (records.foldl (fun c r => counterIncr c (simpleTypeKey r)) acc) =
        counterTotal acc + records.length := by
  intro records
  induction records with
  | nil => intro acc; simp
  | cons r rest ih =>
    intro acc
    simp only [List.foldl_cons, List.length_cons]
    rw [ih, counterTotal_incr]
    omega

lemma tallyStep_total (mapping : Int → Option String) (st : TallyState) (u : LocalUnit) :
    counterTotal (tallyStep mapping st u).counter = counterTotal st.counter + 1 := by
  rcases h : u.country.bind mapping with _ | r <;>
    simp [tallyStep, h, counterTotal_incr]

lemma tallyUnits_aux (mapping : Int → Option String) :
    ∀ (units : List LocalUnit) (st : TallyState),
      counterTotal ((units.foldl (tallyStep mapping) st).counter) =
        counterTotal st.counter + units.length := by
  intro units
  induction units with
  | nil => intro st; simp
  | cons u rest ih =>
    intro st
    simp only [List.foldl_cons, List.length_cons]
    rw [ih, tallyStep_total]
    omega

/-- Claim C1: for every list of fetched records, the aggregator's tally
satisfies `sum(tally.values()) == len(records)` — every record is counted under
exactly one category key, both in the simple type tally (`count_types`) and in
the treemap `(type, region)` tally of `process_environment`. -/
theorem claim1_tally_total :
    (∀ records : List LocalUnit,
      counterTotal (count_types records) = records.length) ∧
    ∀ (mapping : Int → Option String) (units : List LocalUnit),
      counterTotal ((tallyUnits mapping units).counter) = units.length := by
  constructor
  · intro records
    simpa [counterTotal] using count_types_aux records []
  · intro mapping units
    simpa [tallyUnits, counterTotal] using tallyUnits_aux mapping units ⟨[], []⟩

/-- Claim C4: the simple aggregator uses the record's nested type name verbatim
as the category key when `type_details` is present with a non-empty name, and
otherwise the sentinel `"Unknown / No Type"`; the treemap aggregator applies the
same rule with sentinel `"Unknown Type"`; and `count_types` counts each record
under exactly the key so chosen. -/
theorem claim4_classification :
    (∀ (r : LocalUnit) (td : TypeDetails), r.type_details = some td → td.name ≠ "" →
      simpleTypeKey r = td.name ∧ treemapTypeKey r = td.name) ∧
    (∀ r : LocalUnit, r.type_details = none →
      simpleTypeKey r = "Unknown / No Type" ∧ treemapTypeKey r = "Unknown Type") ∧
    (∀ (r : LocalUnit) (td : TypeDetails), r.type_details = some td → td.name = "" →
      simpleTypeKey r = "Unknown / No Type" ∧ treemapTypeKey r = "Unknown Type") ∧
    ∀ (records : List LocalUnit) (r : LocalUnit),
      count_types (records ++ [r]) = counterIncr (count_types records) (simpleTypeKey r) := by
  refine ⟨?_, ?_, ?_, ?_⟩
  · intro r td h hne
    simp [simpleTypeKey, treemapTypeKey, h, hne]
  · intro r h
    simp [simpleTypeKey, treemapTypeKey, h]
  · intro r td h he
    simp [simpleTypeKey, treemapTypeKey, h, he]
  · intro records r
    simp [count_types, List.foldl_append]

theorem claim4_witness :
    simpleTypeKey ⟨some ⟨"Branch"⟩, none⟩ = "Branch" ∧
    simpleTypeKey ⟨none, none⟩ = "Unknown / No Type" ∧
    treemapTypeKey ⟨some ⟨""⟩, some 1⟩ = "Unknown Type" :=
  ⟨(claim4_classification.1 ⟨some ⟨"Branch"⟩, none⟩ ⟨"Branch"⟩ rfl (by decide)).1,
   (claim4_classification.2.1 ⟨none, none⟩ rfl).1,
   (claim4_classification.2.2.1 ⟨some ⟨""⟩, some 1⟩ ⟨""⟩ rfl rfl).2⟩

/-! ### Fetcher termination and pagination -/

/-- A response stream on which the fetch loop never stops: page `k` reports
`count = (k+2)*LIMIT` (always one full page ahead of the offset) yet delivers a
single record. -/
def advPages : Nat → Page LocalUnit :=
  fun k => { count := (k + 2) * LIMIT, results := [⟨none, none⟩] }

/-- Counterexample to claim C2 as stated: the fetcher does NOT terminate for
every sequence of page responses.  The loop re-reads `count` from each response,
so a stream whose reported counts keep growing ahead of the offset while every
page stays non-empty defeats both halves of the stop condition. -/
theorem claim2_counterexample : ¬ fetchTerminates advPages := by
  intro h
  have h2 : ∃ n, stopsAt advPages n := h
  obtain ⟨n, hn⟩ := h2
  have h3 : (n + 1) * LIMIT ≥ (advPages n).count ∨ (advPages n).results.length = 0 := hn
  rcases h3 with h3 | h3
  · simp only [advPages, LIMIT] at h3
    omega
  · simp [advPages] at h3

/-- Claim C2, amended: the fetcher terminates on every response stream whose
reported counts are bounded (in particular when every response reports one fixed
count, as a consistent API does), and on every stream in which some page returns
zero results; inconsistent streams with unboundedly growing counts are the one
exception, exhibited by `claim2_counterexample`. -/
theorem claim2_amended {α : Type} (resp : Nat → Page α)
    (h : (∃ B, ∀ k, (resp k).count ≤ B) ∨ ∃ n, (resp n).results.length = 0) :
    fetchTerminates resp := by
  rcases h with ⟨B, hB⟩ | ⟨n, hn⟩
  · have hstop : stopsAt resp B := by
      unfold stopsAt LIMIT
      have := hB B
      left
      omega
    exact ⟨B, hstop⟩
  · have hstop : stopsAt resp n := by
      unfold stopsAt
      right
      exact hn
    exact ⟨n, hstop⟩

/-- A consistent stream: every response reports `count = 60`. -/
def steadyPages : Nat → Page LocalUnit :=
  fun _ => { count := 60, results := [⟨none, none⟩] }

theorem claim2_witness : fetchTerminates steadyPages :=
  claim2_amended steadyPages (Or.inl ⟨60, fun _ => le_refl 60⟩)

/-- A mocked page sequence whose `results` arrays sum to the reported
`count = 20`, but whose first page is shorter than `LIMIT`. -/
def shortPages : List (Page LocalUnit) :=
  [{ count := 20, results := List.replicate 10 ⟨none, none⟩ },
   { count := 20, results := List.replicate 10 ⟨none, none⟩ }]

/-- Counterexample to claim C3 as stated: a mocked sequence of pages whose
`results` arrays sum to the reported `count` (20, reported by the first and
every response) on which the fetcher returns 10 records, not 20 — after the
first 10-record page the offset is already `LIMIT = 50 ≥ 20`, so the loop stops
with half the records. -/
theorem claim3_counterexample :
    (∀ p ∈ shortPages, p.count = 20) ∧
    (shortPages.map (fun p => p.results.length)).sum = 20 ∧
    (fetch_paginated shortPages).1.length = 10 := by
  decide

/-- `True` iff every page of the mock except the final one carries exactly
`LIMIT` results (the shape a faithful mock of the paginated API has). -/
def fullExceptLast {α : Type} : List (Page α) → Bool
  | [] => true
  | [_] => true
  | p :: q :: t => decide (p.results.length = LIMIT) && fullExceptLast (q :: t)

lemma fetchLoop_mock {α : Type} (c : Nat) :
    ∀ (pages : List (Page α)) (offset : Nat) (acc : List α),
      pages ≠ [] →
      (∀ p ∈ pages, p.count = c) →
      fullExceptLast pages = true →
      (∀ p ∈ pages, p.results.length ≤ LIMIT) →
      acc.length = offset →
      offset + (pages.map (fun p => p.results.length)).sum = c →
      (fetchLoop pages offset acc).1.length = c ∧
        (fetchLoop pages offset acc).2.2 = true := by
  intro pages
  induction pages with
  | nil => intro offset acc hne; exact absurd rfl hne
  | cons p rest ih =>
    intro offset acc _ hcount hfull hmax hacc hsum
    have hpc : p.count = c := hcount p (List.mem_cons_self _ _)
    have hL : LIMIT = 50 := rfl
    by_cases hstop : offset + LIMIT ≥ p.count ∨ p.results.length = 0
    · have hres : fetchLoop (p :: rest) offset acc = (acc ++ p.results, 1, true) := by
        simp only [fetchLoop]
        rw [if_pos hstop]
      rw [hres]
      refine ⟨?_, rfl⟩
      simp only [List.length_append, hacc]
      cases rest with
      | nil =>
        simp only [List.map_cons, List.map_nil, List.sum_cons, List.sum_nil] at hsum
        omega
      | cons q t =>
        have hf : p.results.length = LIMIT ∧ fullExceptLast (q :: t) = true := by
          simpa [fullExceptLast] using hfull
        have hf1 : p.results.length = 50 := hf.1.trans hL
        simp only [List.map_cons, List.sum_cons] at hsum
        rw [hpc, hL] at hstop
        rcases hstop with hstop | hstop <;> omega
    · push_neg at hstop
      obtain ⟨hlt, hne0⟩ := hstop
      rw [hpc, hL] at hlt
      cases rest with
      | nil =>
        have hm : p.results.length ≤ LIMIT := hmax p (List.mem_cons_self _ _)
        rw [hL] at hm
        simp only [List.map_cons, List.map_nil, List.sum_cons, List.sum_nil] at hsum
        omega
      | cons q t =>
        have hf : p.results.length = LIMIT ∧ fullExceptLast (q :: t) = true := by
          simpa [fullExceptLast] using hfull
        have hcond : ¬ (offset + LIMIT ≥ p.count ∨ p.results.length = 0) := by
          push_neg
          exact ⟨by rw [hpc]; exact hlt, hne0⟩
        have hres : fetchLoop (p :: q :: t) offset acc =
            ((fetchLoop (q :: t) (offset + LIMIT) (acc ++ p.results)).1,
             (fetchLoop (q :: t) (offset + LIMIT) (acc ++ p.results)).2.1 + 1,
             (fetchLoop (q :: t) (offset + LIMIT) (acc ++ p.results)).2.2) := by
          simp only [fetchLoop]
          rw [if_neg hcond]
        rw [hres]
        have hsum2 : offset + LIMIT + ((q :: t).map (fun p => p.results.length)).sum = c := by
          simp only [List.map_cons, List.sum_cons] at hsum ⊢
          rw [hf.1] at hsum
          omega
        have ihh := ih (offset + LIMIT) (acc ++ p.results) (by simp)
          (fun x hx => hcount x (List.mem_cons_of_mem _ hx)) hf.2
          (fun x hx => hmax x (List.mem_cons_of_mem _ hx))
          (by simp [hacc, hf.1]) hsum2
        exact ⟨ihh.1, ihh.2⟩

/-- Claim C3, amended: for a mocked page sequence in which every response
reports the same total `count = c` (the code re-reads `count` from each
response, so a consistent mock makes this equal to reading it from the first),
every non-final page carries exactly `LIMIT` results, no page exceeds `LIMIT`,
and the `results` arrays sum to `c`, the fetcher returns exactly `c` records
and its stop condition fires within the mocked sequence (it requests no page
beyond it). -/
theorem claim3_amended {α : Type} (pages : List (Page α)) (c : Nat)
    (hne : pages ≠ [])
    (hcount : ∀ p ∈ pages, p.count = c)
    (hfull : fullExceptLast pages = true)
    (hmax : ∀ p ∈ pages, p.results.length ≤ LIMIT)
    (hsum : (pages.map (fun p => p.results.length)).sum = c) :
    (fetch_paginated pages).1.length = c ∧ (fetch_paginated pages).2.2 = true :=
  fetchLoop_mock c pages 0 [] hne hcount hfull hmax rfl (by omega)

/-- A faithful mock of a 60-record listing: two pages of 50 and 10 records,
both reporting `count = 60`. -/
def mockPages : List (Page LocalUnit) :=
  [{ count := 60, results := List.replicate 50 ⟨none, none⟩ },
   { count := 60, results := List.replicate 10 ⟨none, none⟩ }]

theorem claim3_witness :
    (fetch_paginated mockPages).1.length = 60 ∧
      (fetch_paginated mockPages).2.2 = true :=
  claim3_amended mockPages 60 (by decide) (by decide) (by decide) (by decide) (by decide)

/-! ### Region resolution -/

lemma build_values_aux :
    ∀ (countries : List Country) (m : Int → Option String) (i : Int) (s : String),
      (countries.foldl regionStep m) i = some s →
      m i = some s ∨
        ∃ c ∈ countries, c.id = some i ∧
          ∃ rid, c.region = some rid ∧ s = regionMapGet rid := by
  intro countries
  induction countries with
  | nil => intro m i s h; exact Or.inl h
  | cons c rest ih =>
    intro m i s h
    rw [List.foldl_cons] at h
    rcases ih (regionStep m c) i s h with h2 | ⟨c2, hc2, h2⟩
    · unfold regionStep at h2
      rcases hid : c.id with _ | cid <;> rcases hreg : c.region with _ | rid <;>
        rw [hid, hreg] at h2 <;> dsimp only at h2
      · exact Or.inl h2
      · exact Or.inl h2
      · exact Or.inl h2
      · by_cases hi : i = cid
        · rw [if_pos hi] at h2
          refine Or.inr ⟨c, List.mem_cons_self _ _, ?_, rid, hreg, ?_⟩
          · rw [hid, hi]
          · exact (Option.some_injective _ h2).symm
        · rw [if_neg hi] at h2
          exact Or.inl h2
    · exact Or.inr ⟨c2, List.mem_cons_of_mem _ hc2, h2⟩

lemma mem_insertDedup {β : Type} [DecidableEq β] (s : List β) (x y : β) :
    y ∈ insertDedup s x ↔ y ∈ s ∨ y = x := by
  unfold insertDedup
  by_cases h : x ∈ s
  · rw [if_pos h]
    constructor
    · exact Or.inl
    · rintro (hy | rfl)
      · exact hy
      · exact h
  · rw [if_neg h]
    simp

lemma nodup_insertDedup {β : Type} [DecidableEq β] (s : List β) (x : β)
    (h : s.Nodup) : (insertDedup s x).Nodup := by
  unfold insertDedup
  by_cases hx : x ∈ s
  · rw [if_pos hx]; exact h
  · rw [if_neg hx]
    simp [List.nodup_append, h, hx]

lemma tallyStep_unresolved_mono (mapping : Int → Option String) (st : TallyState)
    (u : LocalUnit) (x : Option Int) (h : x ∈ st.unresolved) :
    x ∈ (tallyStep mapping st u).unresolved := by
  rcases hb : u.country.bind mapping with _ | r <;> simp [tallyStep, hb]
  · rw [mem_insertDedup]
    exact Or.inl h
  · exact h

lemma tallyFold_unresolved_mono (mapping : Int → Option String) :
    ∀ (units : List LocalUnit) (st : TallyState) (x : Option Int),
      x ∈ st.unresolved → x ∈ (units.foldl (tallyStep mapping) st).unresolved := by
  intro units
  induction units with
  | nil => intro st x h; exact h
  | cons u rest ih =>
    intro st x h
    rw [List.foldl_cons]
    exact ih _ _ (tallyStep_unresolved_mono mapping st u x h)

lemma tallyFold_unresolved_mem (mapping : Int → Option String) :
    ∀ (units : List LocalUnit) (st : TallyState) (u : LocalUnit),
      u ∈ units → u.country.bind mapping = none →
      u.country ∈ (units.foldl (tallyStep mapping) st).unresolved := by
  intro units
  induction units with
  | nil => intro st u h; exact absurd h (List.not_mem_nil _)
  | cons v rest ih =>
    intro st u hu hnone
    rw [List.foldl_cons]
    rcases List.mem_cons.mp hu with rfl | hu2
    · refine tallyFold_unresolved_mono mapping rest _ _ ?_
      simp [tallyStep, hnone, mem_insertDedup]
    · exact ih _ u hu2 hnone

lemma tallyStep_unresolved_nodup (mapping : Int → Option String) (st : TallyState)
    (u : LocalUnit) (h : st.unresolved.Nodup) :
    (tallyStep mapping st u).unresolved.Nodup := by
  rcases hb : u.country.bind mapping with _ | r <;> simp [tallyStep, hb]
  · exact nodup_insertDedup _ _ h
  · exact h

lemma tallyFold_unresolved_nodup (mapping : Int → Option String) :
    ∀ (units : List LocalUnit) (st : TallyState),
      st.unresolved.Nodup → (units.foldl (tallyStep mapping) st).unresolved.Nodup := by
  intro units
  induction units with
  | nil => intro st h; exact h
  | cons u rest ih =>
    intro st h
    rw [List.foldl_cons]
    exact ih _ (tallyStep_unresolved_nodup mapping st u h)

/-- Claim C5: `regionMapGet` realises the fixed 5-entry region table (code 2 is
`"Asia Pacific"`) and synthesizes `"Unknown (<code>)"` outside it; every value
of the mapping built by `build_country_to_region` comes from that rule applied
to a listed country; and a unit whose country id misses the mapping is tallied
under the `"Unknown Region"` sentinel while its id joins the deduplicated
unresolved-set diagnostic. -/
theorem claim5_region_resolution :
    (regionMapGet 0 = "Africa" ∧ regionMapGet 1 = "Americas" ∧
      regionMapGet 2 = "Asia Pacific" ∧ regionMapGet 3 = "Europe" ∧
      regionMapGet 4 = "MENA") ∧
    (∀ region_id : Int, region_id ≠ 0 → region_id ≠ 1 → region_id ≠ 2 →
      region_id ≠ 3 → region_id ≠ 4 →
      regionMapGet region_id = "Unknown (" ++ toString region_id ++ ")") ∧
    (∀ (countries : List Country) (i : Int) (s : String),
      build_country_to_region countries i = some s →
      ∃ c ∈ countries, c.id = some i ∧
        ∃ rid, c.region = some rid ∧ s = regionMapGet rid) ∧
    (∀ (mapping : Int → Option String) (st : TallyState) (unit : LocalUnit),
      unit.country.bind mapping = none →
      (tallyStep mapping st unit).counter =
        counterIncr st.counter (treemapTypeKey unit, "Unknown Region") ∧
      (tallyStep mapping st unit).unresolved = insertDedup st.unresolved unit.country) ∧
    (∀ (mapping : Int → Option String) (units : List LocalUnit) (unit : LocalUnit),
      unit ∈ units → unit.country.bind mapping = none →
      unit.country ∈ (tallyUnits mapping units).unresolved) ∧
    ∀ (mapping : Int → Option String) (units : List LocalUnit),
      (tallyUnits mapping units).unresolved.Nodup := by
  refine ⟨⟨rfl, rfl, rfl, rfl, rfl⟩, ?_, ?_, ?_, ?_, ?_⟩
  · intro rid h0 h1 h2 h3 h4
    simp [regionMapGet, REGION_MAP, h0, h1, h2, h3, h4]
  · intro countries i s h
    have h2 := build_values_aux countries (fun _ => none) i s h
    rcases h2 with h2 | h2
    · exact absurd h2 (by simp)
    · exact h2
  · intro mapping st unit h
    simp [tallyStep, h]
  · intro mapping units unit hu hnone
    exact tallyFold_unresolved_mem mapping units ⟨[], []⟩ unit hu hnone
  · intro mapping units
    exact tallyFold_unresolved_nodup mapping units ⟨[], []⟩ (by simp)

theorem claim5_witness :
    regionMapGet 7 = "Unknown (" ++ toString (7 : Int) ++ ")" ∧
    (some 99 : Option Int) ∈ (tallyUnits (fun _ => none) [⟨none, some 99⟩]).unresolved ∧
    (tallyUnits (fun _ => none) [⟨none, some 99⟩]).unresolved.Nodup :=
  ⟨claim5_region_resolution.2.1 7 (by decide) (by decide) (by decide) (by decide) (by decide),
   claim5_region_resolution.2.2.2.2.1 (fun _ => none) [⟨none, some 99⟩] ⟨none, some 99⟩
     (List.mem_singleton.mpr rfl) rfl,
   claim5_region_resolution.2.2.2.2.2 (fun _ => none) [⟨none, some 99⟩]⟩

/-! ### Percentage and waffle columns -/

/-- Claim C6: the percentage column is `count / column-total × 100` rounded to
2 decimals and the waffle-cell column is the same ratio rounded to the nearest
integer; the tally `{"A": 3, "B": 1}` (count column `[3, 1]`, total 4) yields
percentages `75.00` and `25.00` and waffle cells `75` and `25`; and when the
column total is 0 both columns are the constant 0 (no division is attempted). -/
theorem claim6_columns :
    (pctColumn [3, 1] = [75, 25] ∧ waffleColumn [3, 1] = [75, 25]) ∧
    (∀ counts : List Nat, counts.sum = 0 →
      pctColumn counts = counts.map (fun _ => 0) ∧
      waffleColumn counts = counts.map (fun _ => 0)) ∧
    ∀ counts : List Nat, counts.sum ≠ 0 →
      pctColumn counts =
        counts.map (fun c => round2 ((c : ℚ) / (counts.sum : ℚ) * 100)) ∧
      waffleColumn counts =
        counts.map (fun c => roundHalfEven ((c : ℚ) / (counts.sum : ℚ) * 100)) := by
  refine ⟨⟨?_, ?_⟩, ?_, ?_⟩
  · simp only [pctColumn, List.sum_cons, List.sum_nil]
    norm_num [round2, roundHalfEven]
  · simp only [waffleColumn, List.sum_cons, List.sum_nil]
    norm_num [roundHalfEven]
  · intro counts h
    constructor <;> simp [pctColumn, waffleColumn, h]
  · intro counts h
    constructor <;> simp [pctColumn, waffleColumn, h]

theorem claim6_witness :
    pctColumn [0, 0] = [0, 0].map (fun _ => (0 : ℚ)) ∧
    waffleColumn [0, 0] = [0, 0].map (fun _ => (0 : ℤ)) :=
  claim6_columns.2.1 [0, 0] rfl

/-! ### Environment isolation -/

lemma envCounts_prod_err (fetch : String → FetchOutcome LocalUnit)
    (records : List LocalUnit)
    (herr : IsFetchError (fetch "production"))
    (hok : fetch "staging" = FetchOutcome.ok records) :
    envCounts fetch ENVIRONMENTS = [("staging", count_types records)] := by
  rcases herr with herr | ⟨s, herr⟩ <;>
    simp [envCounts, ENVIRONMENTS, herr, hok]

/-- Claim C7: an environment whose fetch raises a connection error or an HTTP
error is skipped on its own; the run completes (the model is a total function)
and the output carries count cells, percentage and waffle columns (simple
report) or a sheet (treemap report) only for the environment that fetched
successfully. -/
theorem claim7_env_isolation :
    (∀ (fetch : String → FetchOutcome LocalUnit) (records : List LocalUnit),
      IsFetchError (fetch "production") → fetch "staging" = FetchOutcome.ok records →
      ∃ rep, mainSimple fetch = some rep ∧
        rep.pctCols.map (fun p => p.1) = ["staging"] ∧
        rep.waffleCols.map (fun p => p.1) = ["staging"] ∧
        ∀ row ∈ rep.rows, row.cells.map (fun p => p.1) = ["staging"]) ∧
    ∀ (fetchCountries : String → FetchOutcome Country)
      (fetchUnits : String → FetchOutcome LocalUnit)
      (countries : List Country) (units : List LocalUnit),
      IsFetchError (fetchCountries "production") →
      fetchCountries "staging" = FetchOutcome.ok countries →
      fetchUnits "staging" = FetchOutcome.ok units →
      ∃ sheets, mainTreemap fetchCountries fetchUnits = some sheets ∧
        sheets.map (fun p => p.1) = ["staging"] := by
  constructor
  · intro fetch records herr hok
    have hec := envCounts_prod_err fetch records herr hok
    have hmain : mainSimple fetch = some
        { rows := buildRows [("staging", count_types records)],
          pctCols := [("staging",
            pctColumn (countColumn (buildRows [("staging", count_types records)]) "staging"))],
          waffleCols := [("staging",
            waffleColumn (countColumn (buildRows [("staging", count_types records)]) "staging"))] } := by
      simp [mainSimple, hec]
    refine ⟨_, hmain, ?_, ?_, ?_⟩
    · simp
    · simp
    · intro row hrow
      simp only [buildRows, List.mem_map] at hrow
      obtain ⟨t, _, rfl⟩ := hrow
      simp [ENVIRONMENTS, assocLookup, hec]
  · intro fc fu countries units herr hokc hoku
    have hprod : process_environment (fc "production") (fu "production") = none := by
      rcases herr with herr | ⟨s, herr⟩ <;> simp [process_environment, herr]
    have hmain : mainTreemap fc fu = some
        [("staging", buildTreemapRows (build_country_to_region countries) units)] := by
      simp only [mainTreemap, ENVIRONMENTS, List.filterMap_cons, List.filterMap_nil]
      rw [hprod, hokc, hoku]
      simp [process_environment]
    exact ⟨_, hmain, by simp⟩

def fetchSim0 : String → FetchOutcome LocalUnit :=
  fun env => if env = "staging" then FetchOutcome.ok [⟨none, none⟩] else FetchOutcome.connError

def fetchCty0 : String → FetchOutcome Country :=
  fun env => if env = "staging" then FetchOutcome.ok [⟨some 1, some 2⟩] else FetchOutcome.connError

theorem claim7_witness :
    (∃ rep, mainSimple fetchSim0 = some rep ∧
      rep.pctCols.map (fun p => p.1) = ["staging"] ∧
      rep.waffleCols.map (fun p => p.1) = ["staging"] ∧
      ∀ row ∈ rep.rows, row.cells.map (fun p => p.1) = ["staging"]) ∧
    ∃ sheets, mainTreemap fetchCty0 fetchSim0 = some sheets ∧
      sheets.map (fun p => p.1) = ["staging"] :=
  ⟨claim7_env_isolation.1 fetchSim0 [⟨none, none⟩] (Or.inl (by decide)) (by decide),
   claim7_env_isolation.2 fetchCty0 fetchSim0 [⟨some 1, some 2⟩] [⟨none, none⟩]
     (Or.inl (by decide)) (by decide) (by decide)⟩

/-- Claim C8: when every environment fails to fetch, the run returns early
(`none`: the terminal-error path) and no spreadsheet value is produced at all —
in the model the file write happens exactly on the `some` result. -/
theorem claim8_all_fail :
    (∀ fetch : String → FetchOutcome LocalUnit,
      (∀ env ∈ ENVIRONMENTS, IsFetchError (fetch env)) → mainSimple fetch = none) ∧
    ∀ (fc : String → FetchOutcome Country) (fu : String → FetchOutcome LocalUnit),
      (∀ env ∈ ENVIRONMENTS, IsFetchError (fc env)) → mainTreemap fc fu = none := by
  constructor
  · intro fetch h
    have hp := h "production" (by simp [ENVIRONMENTS])
    have hs := h "staging" (by simp [ENVIRONMENTS])
    rcases hp with hp | ⟨s1, hp⟩ <;> rcases hs with hs | ⟨s2, hs⟩ <;>
      simp [mainSimple, envCounts, ENVIRONMENTS, hp, hs]
  · intro fc fu h
    have hp := h "production" (by simp [ENVIRONMENTS])
    have hs := h "staging" (by simp [ENVIRONMENTS])
    rcases hp with hp | ⟨s1, hp⟩ <;> rcases hs with hs | ⟨s2, hs⟩ <;>
      simp [mainTreemap, ENVIRONMENTS, process_environment, hp, hs]

theorem claim8_witness :
    mainSimple (fun _ => FetchOutcome.connError) = none ∧
    mainTreemap (fun _ => FetchOutcome.connError) (fun _ => FetchOutcome.connError) = none :=
  ⟨claim8_all_fail.1 (fun _ => FetchOutcome.connError) (fun _ _ => Or.inl rfl),
   claim8_all_fail.2 (fun _ => FetchOutcome.connError) (fun _ => FetchOutcome.connError)
     (fun _ _ => Or.inl rfl)⟩

/-! ### Row index and zero-filled count columns -/

lemma dedup_fold_mem :
    ∀ (l acc : List String) (x : String),
      x ∈ l.foldl (fun acc k => if k ∈ acc then acc else acc ++ [k]) acc ↔
        x ∈ acc ∨ x ∈ l := by
  intro l
  induction l with
  | nil => intro acc x; simp
  | cons k rest ih =>
    intro acc x
    rw [List.foldl_cons]
    by_cases hk : k ∈ acc
    · rw [if_pos hk, ih]
      constructor
      · rintro (h | h)
        · exact Or.inl h
        · exact Or.inr (List.mem_cons_of_mem _ h)
      · rintro (h | h)
        · exact Or.inl h
        · rcases List.mem_cons.mp h with rfl | h2
          · exact Or.inl hk
          · exact Or.inr h2
    · rw [if_neg hk, ih]
      simp [List.mem_append, List.mem_cons, or_assoc]
  
lemma mem_dedupKeys (l : List String) (x : String) : x ∈ dedupKeys l ↔ x ∈ l := by
  unfold dedupKeys
  rw [dedup_fold_mem]
  simp

lemma dedup_fold_nodup :
    ∀ (l acc : List String), acc.Nodup →
      (l.foldl (fun acc k => if k ∈ acc then acc else acc ++ [k]) acc).Nodup := by
  intro l
  induction l with
  | nil => intro acc h; exact h
  | cons k rest ih =>
    intro acc h
    rw [List.foldl_cons]
    by_cases hk : k ∈ acc
    · rw [if_pos hk]; exact ih acc h
    · rw [if_neg hk]
      exact ih _ (by simp [List.nodup_append, h, hk])

lemma nodup_dedupKeys (l : List String) : (dedupKeys l).Nodup :=
  dedup_fold_nodup l [] (by simp)

lemma envCounts_acc (fetch : String → FetchOutcome LocalUnit) :
    ∀ (envs : List String) (acc : List (String × List (String × Nat))),
      envs.foldl
        (fun acc env =>
          match fetch env with
          | FetchOutcome.ok records => acc ++ [(env, count_types records)]
          | _ => acc) acc =
        acc ++ envCounts fetch envs := by
  intro envs
  induction envs with
  | nil => intro acc; simp [envCounts]
  | cons env rest ih =>
    intro acc
    rcases h : fetch env with recs | _ | s <;>
      · simp only [envCounts, List.foldl_cons, h]
        rw [ih, ih]
        simp

lemma mem_envCounts (fetch : String → FetchOutcome LocalUnit) :
    ∀ (envs : List String) (e : String × List (String × Nat)),
      e ∈ envCounts fetch envs ↔
        ∃ env records, env ∈ envs ∧ fetch env = FetchOutcome.ok records ∧
          e = (env, count_types records) := by
  intro envs
  induction envs with
  | nil => intro e; simp [envCounts]
  | cons env rest ih =>
    intro e
    rcases h : fetch env with recs | _ | s
    · have heq : envCounts fetch (env :: rest) =
          (env, count_types recs) :: envCounts fetch rest := by
        simp only [envCounts, List.foldl_cons, h]
        rw [envCounts_acc]
        simp [envCounts]
      rw [heq]
      simp only [List.mem_cons, ih]
      constructor
      · rintro (rfl | ⟨env2, recs2, hm, hf, rfl⟩)
        · exact ⟨env, recs, Or.inl rfl, h, rfl⟩
        · exact ⟨env2, recs2, Or.inr hm, hf, rfl⟩
      · rintro ⟨env2, recs2, hm, hf, rfl⟩
        rcases hm with rfl | hm2
        · rw [h] at hf
          simp only [FetchOutcome.ok.injEq] at hf
          subst hf
          exact Or.inl rfl
        · exact Or.inr ⟨env2, recs2, hm2, hf, rfl⟩
    · have heq : envCounts fetch (env :: rest) = envCounts fetch rest := by
        simp only [envCounts, List.foldl_cons, h]
      rw [heq, ih]
      constructor
      · rintro ⟨e2, r2, hm, hf, rfl⟩
        exact ⟨e2, r2, List.mem_cons_of_mem _ hm, hf, rfl⟩
      · rintro ⟨e2, r2, hm, hf, rfl⟩
        rcases List.mem_cons.mp hm with rfl | hm2
        · rw [h] at hf; simp at hf
        · exact ⟨e2, r2, hm2, hf, rfl⟩
    · have heq : envCounts fetch (env :: rest) = envCounts fetch rest := by
        simp only [envCounts, List.foldl_cons, h]
      rw [heq, ih]
      constructor
      · rintro ⟨e2, r2, hm, hf, rfl⟩
        exact ⟨e2, r2, List.mem_cons_of_mem _ hm, hf, rfl⟩
      · rintro ⟨e2, r2, hm, hf, rfl⟩
        rcases List.mem_cons.mp hm with rfl | hm2
        · rw [h] at hf; simp at hf
        · exact ⟨e2, r2, hm2, hf, rfl⟩

lemma mem_all_types (ec : List (String × List (String × Nat))) (k : String) :
    k ∈ all_types ec ↔ ∃ p ∈ ec, k ∈ counterKeys p.2 := by
  unfold all_types
  rw [List.mem_insertionSort, mem_dedupKeys]
  simp only [List.mem_flatten, List.mem_map]
  constructor
  · rintro ⟨l, ⟨p, hp, rfl⟩, hk⟩
    exact ⟨p, hp, hk⟩
  · rintro ⟨p, hp, hk⟩
    exact ⟨counterKeys p.2, ⟨p, hp, rfl⟩, hk⟩

lemma nodup_all_types (ec : List (String × List (String × Nat))) :
    (all_types ec).Nodup := by
  unfold all_types
  exact (List.perm_insertionSort _ _).nodup_iff.mpr (nodup_dedupKeys _)

lemma sorted_all_types (ec : List (String × List (String × Nat))) :
    List.Sorted (fun a b : String => a < b) (all_types ec) := by
  have hs : List.Sorted (fun a b : String => a ≤ b) (all_types ec) :=
    List.sorted_insertionSort _ _
  exact hs.lt_of_le (nodup_all_types ec)

/-- Claim C9: the row index of the simple report (the `categories` column of
`buildRows`, i.e. `all_types`) is exactly the union of the category keys across
all successfully-fetched environments, lexicographically sorted, with one row
per distinct key. -/
theorem claim9_row_index (fetch : String → FetchOutcome LocalUnit) :
    ((buildRows (envCounts fetch ENVIRONMENTS)).map (fun r => r.category) =
      all_types (envCounts fetch ENVIRONMENTS)) ∧
    List.Sorted (fun a b : String => a < b) (all_types (envCounts fetch ENVIRONMENTS)) ∧
    (all_types (envCounts fetch ENVIRONMENTS)).Nodup ∧
    ∀ k, k ∈ all_types (envCounts fetch ENVIRONMENTS) ↔
      ∃ env records, env ∈ ENVIRONMENTS ∧ fetch env = FetchOutcome.ok records ∧
        k ∈ counterKeys (count_types records) := by
  refine ⟨?_, sorted_all_types _, nodup_all_types _, ?_⟩
  · simp [buildRows, Function.comp_def]
  · intro k
    rw [mem_all_types]
    constructor
    · rintro ⟨p, hp, hk⟩
      obtain ⟨env, records, hm, hf, rfl⟩ := (mem_envCounts fetch ENVIRONMENTS p).mp hp
      exact ⟨env, records, hm, hf, hk⟩
    · rintro ⟨env, records, hm, hf, hk⟩
      exact ⟨(env, count_types records),
        (mem_envCounts fetch ENVIRONMENTS _).mpr ⟨env, records, hm, hf, rfl⟩, hk⟩

theorem claim9_witness :
    ((buildRows (envCounts fetchSim0 ENVIRONMENTS)).map (fun r => r.category) =
      all_types (envCounts fetchSim0 ENVIRONMENTS)) ∧
    List.Sorted (fun a b : String => a < b) (all_types (envCounts fetchSim0 ENVIRONMENTS)) ∧
    (all_types (envCounts fetchSim0 ENVIRONMENTS)).Nodup :=
  ⟨(claim9_row_index fetchSim0).1, (claim9_row_index fetchSim0).2.1,
   (claim9_row_index fetchSim0).2.2.1⟩

lemma counterGet_not_mem {K : Type} [DecidableEq K] :
    ∀ (c : List (K × Nat)) (k : K), k ∉ counterKeys c → counterGet c k = 0 := by
  intro c
  induction c with
  | nil => intro k _; rfl
  | cons p rest ih =>
    intro k h
    obtain ⟨k2, v⟩ := p
    simp only [counterKeys, List.map_cons, List.mem_cons] at h
    push_neg at h
    simp only [counterGet, if_neg h.1]
    exact ih k h.2

lemma assocLookup_envCounts (fetch : String → FetchOutcome LocalUnit) :
    ∀ (envs : List String), envs.Nodup → ∀ env counter,
      (env, counter) ∈ envCounts fetch envs →
      assocLookup (envCounts fetch envs) env = some counter := by
  intro envs
  induction envs with
  | nil => intro _ env counter h; simp [envCounts] at h
  | cons e rest ih =>
    intro hnd env counter hm
    rcases h : fetch e with recs | _ | s
    · have heq : envCounts fetch (e :: rest) =
          (e, count_types recs) :: envCounts fetch rest := by
        simp only [envCounts, List.foldl_cons, h]
        rw [envCounts_acc]
        simp [envCounts]
      rw [heq] at hm ⊢
      rcases List.mem_cons.mp hm with hm1 | hm2
      · simp only [Prod.mk.injEq] at hm1
        obtain ⟨rfl, rfl⟩ := hm1
        simp [assocLookup]
      · have henv : env ∈ rest := by
          obtain ⟨env2, recs2, hmm, hf, heq2⟩ := (mem_envCounts fetch rest _).mp hm2
          simp only [Prod.mk.injEq] at heq2
          rw [← heq2.1] at hmm
          exact hmm
        have hne : env ≠ e := fun hc => (List.nodup_cons.mp hnd).1 (hc ▸ henv)
        simp only [assocLookup, if_neg hne]
        exact ih (List.nodup_cons.mp hnd).2 env counter hm2
    · have heq : envCounts fetch (e :: rest) = envCounts fetch rest := by
        simp only [envCounts, List.foldl_cons, h]
      rw [heq] at hm ⊢
      exact ih (List.nodup_cons.mp hnd).2 env counter hm
    · have heq : envCounts fetch (e :: rest) = envCounts fetch rest := by
        simp only [envCounts, List.foldl_cons, h]
      rw [heq] at hm ⊢
      exact ih (List.nodup_cons.mp hnd).2 env counter hm

lemma lookup_filterMap (f : String → Option (String × Nat)) :
    ∀ (envs : List String) (env : String) (v : Nat),
      env ∈ envs → (∀ e p, f e = some p → p.1 = e) → f env = some (env, v) →
      assocLookup (envs.filterMap f) env = some v := by
  intro envs
  induction envs with
  | nil => intro env v h; simp at h
  | cons e rest ih =>
    intro env v henv hkey hf
    by_cases hee : env = e
    · subst hee
      rw [List.filterMap_cons, hf]
      simp [assocLookup]
    · have henv2 : env ∈ rest := by
        rcases List.mem_cons.mp henv with rfl | h2
        · exact absurd rfl hee
        · exact h2
      rw [List.filterMap_cons]
      rcases hfe : f e with _ | p
      · exact ih env v henv2 hkey hf
      · have hp1 : p.1 = e := hkey e p hfe
        obtain ⟨k2, v2⟩ := p
        have hne : env ≠ k2 := by
          intro hc
          exact hee (hc.trans hp1)
        simp only [assocLookup, if_neg hne]
        exact ih env v henv2 hkey hf

/-- Claim C10: in the simple report, for every reachable environment and every
row, the environment's count cell holds that environment's tally count for the
row's category key, where a key absent from the tally counts 0 — keys seen only
in other environments are zero-filled, never dropped. -/
theorem claim10_zero_fill (fetch : String → FetchOutcome LocalUnit)
    (env : String) (counter : List (String × Nat))
    (hmem : (env, counter) ∈ envCounts fetch ENVIRONMENTS) :
    (∀ row ∈ buildRows (envCounts fetch ENVIRONMENTS),
      assocLookup row.cells env = some (counterGet counter row.category)) ∧
    ∀ k, k ∉ counterKeys counter → counterGet counter k = 0 := by
  constructor
  · intro row hrow
    simp only [buildRows, List.mem_map] at hrow
    obtain ⟨t, _, rfl⟩ := hrow
    have henv : env ∈ ENVIRONMENTS := by
      obtain ⟨env2, recs2, hm, hf, heq⟩ :=
        (mem_envCounts fetch ENVIRONMENTS _).mp hmem
      simp only [Prod.mk.injEq] at heq
      rw [heq.1]
      exact hm
    have hlook : assocLookup (envCounts fetch ENVIRONMENTS) env = some counter :=
      assocLookup_envCounts fetch ENVIRONMENTS (by decide) env counter hmem
    dsimp only
    apply lookup_filterMap _ ENVIRONMENTS env _ henv
    · intro e p hp
      rcases Option.map_eq_some'.mp hp with ⟨c, _, rfl⟩
      rfl
    · rw [hlook]
      rfl
  · intro k hk
    exact counterGet_not_mem counter k hk

theorem claim10_witness :
    assocLookup
        (List.headD (buildRows (envCounts fetchSim0 ENVIRONMENTS))
          { category := "", cells := [] }).cells "staging" =
      some (counterGet (count_types [(⟨none, none⟩ : LocalUnit)])
        (List.headD (buildRows (envCounts fetchSim0 ENVIRONMENTS))
          { category := "", cells := [] }).category) ∧
    counterGet (count_types [(⟨none, none⟩ : LocalUnit)]) "never seen" = 0 :=
  ⟨(claim10_zero_fill fetchSim0 "staging" (count_types [⟨none, none⟩])
      (by decide)).1 _ (by decide),
   (claim10_zero_fill fetchSim0 "staging" (count_types [⟨none, none⟩])
      (by decide)).2 "never seen" (by decide)⟩
